import Mathlib

/-!
GoDB lab2 core: a shallow embedding of the heap-page and heap-file storage layer,
the buffer pool, the pull-based Insert, Delete and OrderBy operators and the WAL
recovery pass of the tikkisean/csc560-lab2 repository, together with theorems
checking the natural-language specification against this embedding.

Go machine integers are modelled as Nat or Int (with explicit remarks where
int32 truncation or a division-by-zero panic matters); byte buffers are
`List Nat`; fallible Go functions returning a (value, error) pair are modelled
with Except or Option.
-/

namespace GoDB

/-- PageSize constant (spec section 3: canonical value 4096). -/
def PageSize : Nat := 4096

/-- Modelled from the spec: `StringLength` (the types file is not under src/):
the fixed byte capacity of a String field (spec section 3). The concrete value
is the canonical GoDB configuration; no theorem below depends on the number. -/
def StringLength : Nat := 32

/-- Field kinds (spec section 3: kind is Int or String). -/
inductive FType where
  | intType
  | stringType
deriving DecidableEq, Repr

/-- FieldType: name, table qualifier and kind (spec section 3). -/
structure FieldType where
  Fname : String
  TableQualifier : String
  Ftype : FType
deriving DecidableEq, Repr

/-- TupleDesc: an ordered sequence of FieldType (spec section 3). -/
structure TupleDesc where
  Fields : List FieldType
deriving DecidableEq, Repr

/-- Modelled from the spec: per-field wire size (spec section 6: Int is 8 bytes
little-endian signed, String is exactly StringLength bytes). -/
def fieldSize : FType → Nat
  | .intType => 8
  | .stringType => StringLength

/-- Modelled from the spec: bytes_per_tuple is the sum of the field sizes of the
schema (spec section 3); TupleDesc.bytesPerTuple lives in the tuple file, which
is not under src/. -/
def TupleDesc.bytesPerTuple (td : TupleDesc) : Nat :=
  (td.Fields.map (fun f => fieldSize f.Ftype)).sum

/-- A field value: a 64-bit signed integer or a byte string (the bytes of a Go
string). -/
inductive DBValue where
  | IntField (v : Int)
  | StringField (s : List Nat)
deriving DecidableEq, Repr

/-- heapFileRid (heap_file.go:29-32): record identifier, page number and slot
number, both Go ints. -/
structure heapFileRid where
  pageNo : Int
  slotNo : Int
deriving DecidableEq, Repr

/-- Tuple (spec section 3): descriptor, field values and an optional record id.
In Go the Rid field is an empty interface holding nil or a heapFileRid; it is
modelled as an Option. -/
structure Tuple where
  Desc : TupleDesc
  Fields : List DBValue
  Rid : Option heapFileRid
deriving DecidableEq, Repr

/-! ## Byte-level codec

Modelled from the spec (the tuple file with writeTo and readTupleFrom is not
under src/): spec section 6 fixes the wire format, Int as 8 bytes little-endian
signed, String as exactly StringLength bytes with trailing zero padding. -/

/-- natLE k n: the k little-endian bytes of n (bytes are Nat values below 256
by construction). -/
def natLE : Nat → Nat → List Nat
  | 0, _ => []
  | k + 1, n => (n % 256) :: natLE k (n / 256)

/-- leNat bs: the Nat denoted by the little-endian byte list bs. -/
def leNat : List Nat → Nat
  | [] => 0
  | b :: bs => b + 256 * leNat bs

/-- Modelled from the spec: encoding of a 64-bit signed integer, two's
complement little-endian. -/
def i64enc (v : Int) : List Nat :=
  natLE 8 (v % (18446744073709551616 : Int)).toNat

/-- Modelled from the spec: decoding of a 64-bit signed integer. -/
def i64dec (bs : List Nat) : Int :=
  let n := leNat bs
  if n < 9223372036854775808 then (n : Int) else (n : Int) - 18446744073709551616

/-- Modelled from the spec: a string field is written as exactly StringLength
bytes, truncated or zero-padded (spec sections 3 and 6). -/
def strEnc (s : List Nat) : List Nat :=
  s.take StringLength ++ List.replicate (StringLength - s.length) 0

/-- Drop the trailing zero bytes of a byte list. -/
def dropTrailingZeros (s : List Nat) : List Nat :=
  (s.reverse.dropWhile (fun b => b = 0)).reverse

/-- Modelled from the spec: reading a string field consumes StringLength bytes
and strips the trailing zero padding. -/
def strDec (bs : List Nat) : List Nat :=
  dropTrailingZeros (bs.take StringLength)

/-- Modelled from the spec: serialize one field value. -/
def encValue : DBValue → List Nat
  | .IntField v => i64enc v
  | .StringField s => strEnc s

/-- Modelled from the spec: parse one field value of the given kind from the
front of a byte list, returning the value and the remaining bytes; none models
the binary.Read error on a short buffer. -/
def decValue (ft : FType) (bs : List Nat) : Option (DBValue × List Nat) :=
  match ft with
  | .intType =>
    if bs.length < 8 then none
    else some (.IntField (i64dec (bs.take 8)), bs.drop 8)
  | .stringType =>
    if bs.length < StringLength then none
    else some (.StringField (strDec (bs.take StringLength)), bs.drop StringLength)

/-- Modelled from the spec: Tuple.writeTo serializes the field values in
order. -/
def writeTuple (t : Tuple) : List Nat :=
  t.Fields.flatMap encValue

/-- Parse a list of field values following a list of field types. -/
def readFields : List FieldType → List Nat → Option (List DBValue × List Nat)
  | [], bs => some ([], bs)
  | f :: fs, bs =>
    match decValue f.Ftype bs with
    | none => none
    | some (v, rest) =>
      match readFields fs rest with
      | none => none
      | some (vs, r2) => some (v :: vs, r2)

/-- Modelled from the spec: readTupleFrom parses one tuple of the given
descriptor from the front of a byte list; the parsed tuple carries the
descriptor it was parsed with and no record id. -/
def readTupleFrom (desc : TupleDesc) (bs : List Nat) : Option (Tuple × List Nat) :=
  match readFields desc.Fields bs with
  | none => none
  | some (vs, rest) => some ({ Desc := desc, Fields := vs, Rid := none }, rest)

/-! ## Codec well-formedness and round-trip lemmas -/

/-- A value is well formed for a field kind: the kinds match, an Int is in
signed 64-bit range, and a string holds at most StringLength bytes, each below
256, with no trailing zero byte (a trailing zero would be absorbed by the wire
padding). -/
def wfValue : FType → DBValue → Prop
  | .intType, .IntField v => -(9223372036854775808 : Int) ≤ v ∧ v < 9223372036854775808
  | .stringType, .StringField s =>
      s.length ≤ StringLength ∧ s.getLast? ≠ some 0 ∧ ∀ b ∈ s, b < 256
  | _, _ => False

instance : ∀ ft v, Decidable (wfValue ft v) := by
  intro ft v
  cases ft <;> cases v <;> simp only [wfValue] <;> infer_instance

/-- A tuple is well formed for a descriptor when its values match the field
kinds pointwise. -/
def wfTuple (desc : TupleDesc) (t : Tuple) : Prop :=
  List.Forall₂ (fun f v => wfValue f.Ftype v) desc.Fields t.Fields

instance : ∀ desc t, Decidable (wfTuple desc t) := by
  intro desc t
  unfold wfTuple
  infer_instance

theorem natLE_length (k n : Nat) : (natLE k n).length = k := by
  induction k generalizing n with
  | zero => rfl
  | succ k ih => simp [natLE, ih]

theorem leNat_natLE (k n : Nat) : leNat (natLE k n) = n % 256 ^ k := by
  induction k generalizing n with
  | zero => simp [natLE, leNat, Nat.mod_one]
  | succ k ih =>
    rw [natLE, leNat, ih, pow_succ, mul_comm (256 ^ k) 256, Nat.mod_mul]

theorem leNat_natLE_of_lt {k n : Nat} (h : n < 256 ^ k) : leNat (natLE k n) = n := by
  rw [leNat_natLE, Nat.mod_eq_of_lt h]

theorem i64_roundtrip {v : Int} (h1 : -(9223372036854775808 : Int) ≤ v)
    (h2 : v < 9223372036854775808) : i64dec (i64enc v) = v := by
  have hm : (0 : Int) < 18446744073709551616 := by norm_num
  have hmod : v % (18446744073709551616 : Int)
      = if 0 ≤ v then v else v + 18446744073709551616 := by
    by_cases hv : 0 ≤ v
    · rw [if_pos hv]
      exact Int.emod_eq_of_lt hv (by omega)
    · rw [if_neg hv]
      have : (v + 18446744073709551616) % 18446744073709551616
          = v % 18446744073709551616 := by
        omega
      rw [← this]
      exact Int.emod_eq_of_lt (by omega) (by omega)
  have hrange : 0 ≤ v % (18446744073709551616 : Int) ∧
      v % (18446744073709551616 : Int) < 18446744073709551616 := by
    constructor
    · exact Int.emod_nonneg v (by norm_num)
    · exact Int.emod_lt_of_pos v hm
  unfold i64enc i64dec
  have hlt : (v % (18446744073709551616 : Int)).toNat < 256 ^ 8 := by
    have : (256 : Nat) ^ 8 = 18446744073709551616 := by norm_num
    omega
  rw [leNat_natLE_of_lt hlt]
  by_cases hv : 0 ≤ v
  · rw [hmod, if_pos hv] at *
    have : ((v.toNat : Int)) = v := Int.toNat_of_nonneg hv
    simp only []
    omega
  · rw [hmod, if_neg hv] at *
    simp only []
    omega

theorem dropWhile_replicate_append (k : Nat) (r : List Nat) :
    (List.replicate k 0 ++ r).dropWhile (fun b => b = 0) = r.dropWhile (fun b => b = 0) := by
  induction k with
  | zero => simp
  | succ k ih =>
    rw [List.replicate_succ, List.cons_append, List.dropWhile_cons_of_pos (by decide)]
    exact ih

theorem dropTrailingZeros_pad {s : List Nat} (hlast : s.getLast? ≠ some 0) (k : Nat) :
    dropTrailingZeros (s ++ List.replicate k 0) = s := by
  unfold dropTrailingZeros
  rw [List.reverse_append, List.reverse_replicate, dropWhile_replicate_append]
  cases hs : s.reverse with
  | nil =>
    have : s = [] := by simpa using congrArg List.reverse hs
    simp [this]
  | cons b bs =>
    have hb : s.getLast? = some b := by
      rw [← List.head?_reverse, hs]
      rfl
    have hbne : b ≠ 0 := by
      intro hb0
      exact hlast (hb0 ▸ hb)
    rw [List.dropWhile_cons_of_neg (by simpa using hbne), ← hs]
    simp

theorem strEnc_length (s : List Nat) : (strEnc s).length = StringLength := by
  unfold strEnc
  simp only [List.length_append, List.length_take, List.length_replicate]
  omega

theorem strDec_strEnc {s : List Nat} (hlen : s.length ≤ StringLength)
    (hlast : s.getLast? ≠ some 0) : strDec (strEnc s) = s := by
  unfold strDec strEnc
  rw [List.take_of_length_le hlen]
  have hfull : (s ++ List.replicate (StringLength - s.length) 0).length = StringLength := by
    simp only [List.length_append, List.length_replicate]
    omega
  rw [List.take_of_length_le (le_of_eq hfull)]
  exact dropTrailingZeros_pad hlast _

theorem encValue_length {ft : FType} {v : DBValue} (h : wfValue ft v) :
    (encValue v).length = fieldSize ft := by
  cases ft <;> cases v <;> simp only [wfValue] at h
  · simp [encValue, i64enc, natLE_length, fieldSize]
  · simp [encValue, strEnc_length, fieldSize]

theorem decValue_encValue {ft : FType} {v : DBValue} (h : wfValue ft v) (rest : List Nat) :
    decValue ft (encValue v ++ rest) = some (v, rest) := by
  cases ft with
  | intType =>
    cases v with
    | IntField w =>
      obtain ⟨hlo, hhi⟩ := h
      have hl : (i64enc w).length = 8 := by simp [i64enc, natLE_length]
      have ht : (i64enc w ++ rest).take 8 = i64enc w := by
        rw [← hl, List.take_left]
      have hd : (i64enc w ++ rest).drop 8 = rest := by
        rw [← hl, List.drop_left]
      simp only [decValue, encValue]
      rw [if_neg (by simp [hl]), ht, hd, i64_roundtrip hlo hhi]
    | StringField s => exact h.elim
  | stringType =>
    cases v with
    | IntField w => exact h.elim
    | StringField s =>
      obtain ⟨hlen, hlast, _⟩ := h
      have hl : (strEnc s).length = StringLength := strEnc_length s
      have ht : (strEnc s ++ rest).take StringLength = strEnc s := by
        rw [← hl, List.take_left]
      have hd : (strEnc s ++ rest).drop StringLength = rest := by
        rw [← hl, List.drop_left]
      simp only [decValue, encValue]
      rw [if_neg (by simp [hl]), ht, hd, strDec_strEnc hlen hlast]

theorem readFields_writeFields {fs : List FieldType} {vs : List DBValue}
    (h : List.Forall₂ (fun f v => wfValue f.Ftype v) fs vs) (rest : List Nat) :
    readFields fs (vs.flatMap encValue ++ rest) = some (vs, rest) := by
  induction h generalizing rest with
  | nil => simp [readFields]
  | cons hv _ ih =>
    simp only [List.flatMap_cons, List.append_assoc, readFields, decValue_encValue hv, ih]

theorem readTupleFrom_writeTuple {desc : TupleDesc} {t : Tuple} (h : wfTuple desc t)
    (rest : List Nat) :
    readTupleFrom desc (writeTuple t ++ rest)
      = some ({ Desc := desc, Fields := t.Fields, Rid := none }, rest) := by
  unfold readTupleFrom writeTuple
  rw [readFields_writeFields h]

theorem writeTuple_length {desc : TupleDesc} {t : Tuple} (h : wfTuple desc t) :
    (writeTuple t).length = desc.bytesPerTuple := by
  obtain ⟨fs⟩ := desc
  obtain ⟨d, vs, r⟩ := t
  unfold wfTuple at h
  unfold writeTuple TupleDesc.bytesPerTuple
  simp only at h ⊢
  induction h with
  | nil => simp
  | cons hv _ ih =>
    simp only [List.flatMap_cons, List.map_cons, List.length_append, List.sum_cons, ih,
      encValue_length hv]

/-! ## Heap page (src/unnamed/part_000) -/

/-- Possible error tags of the embedded Go code (GoDBError codes plus two
non-error outcomes we keep apart: panicOOB marks a Go slice-index panic and
notImplemented marks the fmt.Errorf("... not implemented") values). -/
inductive GoErr where
  | pageFull
  | tupleNotFound
  | bufferPoolFull
  | malformedData
  | ioErr
  | notImplemented
  | panicOOB
deriving DecidableEq, Repr

deriving instance DecidableEq for Except

/-- heapPage (part_000:51-61). The back pointer to the owning HeapFile is
dropped: all theorems below work in a single-heap-file configuration where the
page key is just the page number. numSlots and numUsed are Go int32 values that
are nonnegative in every reachable state; they are modelled as Nat. -/
structure heapPage where
  desc : TupleDesc
  numSlots : Nat
  numUsed : Nat
  dirty : Bool
  tuples : List (Option Tuple)
  pageNo : Nat
deriving DecidableEq, Repr

/-- newHeapPage (part_000:64-76): numSlots = (PageSize - 8) / bytesPerTuple.
Go divides int32 values, which panics when bytesPerTuple is 0 (an empty
schema); Lean Nat division yields 0 there, so theorems about newHeapPage carry
the hypothesis 0 < bytesPerTuple where it matters. The int32 conversion is
lossless because (PageSize - 8) / bytesPerTuple is at most 4088. -/
def newHeapPage (desc : TupleDesc) (pageNo : Nat) : heapPage :=
  { desc := desc
    numSlots := (PageSize - 8) / desc.bytesPerTuple
    numUsed := 0
    dirty := false
    tuples := List.replicate ((PageSize - 8) / desc.bytesPerTuple) none
    pageNo := pageNo }

/-- getNumEmptySlots (part_000:79-81). -/
def heapPage.getNumEmptySlots (h : heapPage) : Nat :=
  h.numSlots - h.numUsed

/-- Outcome of the free-slot scan of heapPage.insertTuple. -/
inductive SlotScan where
  | found (i : Nat)
  | full
  | panic
deriving DecidableEq, Repr

/-- The loop of heapPage.insertTuple (part_000:95-102): index i runs while
i < numSlots looking for a nil cell; numSlots counts the iterations still
allowed, i is the current index. A nil cell yields found i; reaching numSlots
yields full; running off the end of the slice first (an ill-formed page) is a
Go index panic. -/
def slotScan : List (Option Tuple) → Nat → Nat → SlotScan
  | _, 0, _ => .full
  | [], _ + 1, _ => .panic
  | none :: _, _ + 1, i => .found i
  | some _ :: rest, n + 1, i => slotScan rest n (i + 1)

/-- heapPage.insertTuple (part_000:93-104): place the tuple in the lowest free
slot, set its rid, increment numUsed; ErrPageFull if no slot is free. -/
def heapPage.insertTuple (h : heapPage) (t : Tuple) : Except GoErr (heapFileRid × heapPage) :=
  match slotScan h.tuples h.numSlots 0 with
  | .found i =>
    let rid : heapFileRid := { pageNo := (h.pageNo : Int), slotNo := (i : Int) }
    .ok (rid, { h with
      tuples := h.tuples.set i (some { t with Rid := some rid })
      numUsed := h.numUsed + 1 })
  | .full => .error .pageFull
  | .panic => .error .panicOOB

/-- heapPage.deleteTuple (part_000:108-124): clear the slot named by the rid;
TupleNotFound when the slot is out of range or already empty. The slice access
h.tuples[slot] panics in Go when numSlots exceeds the slice length; that
unreachable branch is tagged panicOOB. -/
def heapPage.deleteTuple (h : heapPage) (rid : heapFileRid) : Except GoErr heapPage :=
  if rid.slotNo < 0 ∨ (h.numSlots : Int) ≤ rid.slotNo then .error .tupleNotFound
  else
    match h.tuples[rid.slotNo.toNat]? with
    | some none => .error .tupleNotFound
    | some (some _) =>
      .ok { h with numUsed := h.numUsed - 1, tuples := h.tuples.set rid.slotNo.toNat none }
    | none => .error .panicOOB

/-- The occupied tuples of a page in ascending slot order (the tuples the
toBuffer loop at part_000:165-173 writes, skipping nil slots). -/
def heapPage.occupied (h : heapPage) : List Tuple :=
  h.tuples.filterMap id

/-- heapPage.toBuffer (part_000:152-180): int32 numSlots, int32 numUsed, then
the occupied tuples densely in slot order, zero-padded to PageSize; an error
when the body exceeds PageSize. -/
def heapPage.toBuffer (h : heapPage) : Option (List Nat) :=
  let body := natLE 4 h.numSlots ++ natLE 4 h.numUsed ++ h.occupied.flatMap writeTuple
  if PageSize < body.length then none
  else some (body ++ List.replicate (PageSize - body.length) 0)

/-- Parse numUsed tuples in sequence, giving tuple i the rid (pageNo, start+i)
as initFromBuffer does (part_000:195-202). -/
def readTuples (desc : TupleDesc) (pageNo : Nat) (start : Nat) :
    Nat → List Nat → Option (List Tuple × List Nat)
  | 0, bs => some ([], bs)
  | n + 1, bs =>
    match readTupleFrom desc bs with
    | none => none
    | some (t, rest) =>
      match readTuples desc pageNo (start + 1) n rest with
      | none => none
      | some (ts, r2) =>
        some ({ t with Rid := some { pageNo := (pageNo : Int), slotNo := (start : Int) } } :: ts, r2)

/-- heapPage.initFromBuffer (part_000:183-209): read the two int32 header
fields, then numUsed tuples into slots 0..numUsed-1; remaining slots empty,
dirty cleared. Go would panic storing tups[i] when numUsed exceeds numSlots
(the slice has numSlots cells); that case is modelled as none, as are the
binary.Read and readTupleFrom failures on short buffers. Header values are
int32; the Nat decoding agrees on every value below 2^31, which the page
invariants guarantee. -/
def heapPage.initFromBuffer (h : heapPage) (bs : List Nat) : Option heapPage :=
  if bs.length < 4 then none
  else
    let numSlotsH := leNat (bs.take 4)
    let r1 := bs.drop 4
    if r1.length < 4 then none
    else
      let numUsedH := leNat (r1.take 4)
      let r2 := r1.drop 4
      if numSlotsH < numUsedH then none
      else
        match readTuples h.desc h.pageNo 0 numUsedH r2 with
        | none => none
        | some (ts, _) =>
          some { desc := h.desc
                 numSlots := numSlotsH
                 numUsed := numUsedH
                 dirty := false
                 tuples := ts.map some ++ List.replicate (numSlotsH - numUsedH) none
                 pageNo := h.pageNo }

/-! ## Page round-trip lemmas -/

/-- Representation invariant of an in-memory heap page (spec section 3): the
slot array has numSlots cells, numUsed counts the occupied ones, every stored
tuple matches the schema, the page body fits in PageSize bytes and the schema
is nonempty. -/
def wfPage (p : heapPage) : Prop :=
  p.tuples.length = p.numSlots ∧
  p.numUsed = p.occupied.length ∧
  (∀ t ∈ p.occupied, wfTuple p.desc t) ∧
  8 + p.numSlots * p.desc.bytesPerTuple ≤ PageSize ∧
  0 < p.desc.bytesPerTuple

instance : ∀ p, Decidable (wfPage p) := by
  intro p
  unfold wfPage
  infer_instance

/-- The tuples initFromBuffer rebuilds from the serialization of a tuple list:
same fields, descriptor replaced by the page descriptor, rids renumbered from
start. -/
def reparsed (desc : TupleDesc) (pageNo : Nat) (start : Nat) : List Tuple → List Tuple
  | [] => []
  | t :: ts =>
    { Desc := desc, Fields := t.Fields
      Rid := some { pageNo := (pageNo : Int), slotNo := (start : Int) } }
      :: reparsed desc pageNo (start + 1) ts

theorem reparsed_fields (desc : TupleDesc) (pageNo : Nat) (l : List Tuple) :
    ∀ start, (reparsed desc pageNo start l).map Tuple.Fields = l.map Tuple.Fields := by
  induction l with
  | nil => intro start; rfl
  | cons t ts ih =>
    intro start
    simp only [reparsed, List.map_cons, ih]

theorem reparsed_length (desc : TupleDesc) (pageNo : Nat) (l : List Tuple) :
    ∀ start, (reparsed desc pageNo start l).length = l.length := by
  induction l with
  | nil => intro start; rfl
  | cons t ts ih =>
    intro start
    simp only [reparsed, List.length_cons, ih]

theorem readTuples_flatMap (desc : TupleDesc) (pageNo : Nat) (l : List Tuple)
    (h : ∀ t ∈ l, wfTuple desc t) :
    ∀ start rest, readTuples desc pageNo start l.length (l.flatMap writeTuple ++ rest)
      = some (reparsed desc pageNo start l, rest) := by
  induction l with
  | nil => intro start rest; simp [readTuples, reparsed]
  | cons t ts ih =>
    intro start rest
    have ht : wfTuple desc t := h t (List.mem_cons_self t ts)
    have hts : ∀ u ∈ ts, wfTuple desc u := fun u hu => h u (List.mem_cons_of_mem t hu)
    simp only [List.flatMap_cons, List.append_assoc, List.length_cons, readTuples,
      readTupleFrom_writeTuple ht, ih hts (start + 1) rest, reparsed]

theorem flatMap_writeTuple_length {desc : TupleDesc} {l : List Tuple}
    (h : ∀ t ∈ l, wfTuple desc t) :
    (l.flatMap writeTuple).length = l.length * desc.bytesPerTuple := by
  induction l with
  | nil => simp
  | cons t ts ih =>
    have ht : wfTuple desc t := h t (List.mem_cons_self t ts)
    have hts : ∀ u ∈ ts, wfTuple desc u := fun u hu => h u (List.mem_cons_of_mem t hu)
    simp only [List.flatMap_cons, List.length_append, writeTuple_length ht, ih hts,
      List.length_cons]
    ring

theorem filterMap_id_map_some_append_none (l : List Tuple) (k : Nat) :
    (l.map some ++ List.replicate k (none : Option Tuple)).filterMap id = l := by
  induction l with
  | nil =>
    simp only [List.map_nil, List.nil_append]
    induction k with
    | zero => rfl
    | succ k ih => simpa [List.replicate_succ] using ih
  | cons t ts ih => simpa using ih

theorem writeTuple_eq_of_fields {a b : Tuple} (h : a.Fields = b.Fields) :
    writeTuple a = writeTuple b := by
  unfold writeTuple
  rw [h]

theorem flatMap_writeTuple_congr {l1 l2 : List Tuple}
    (h : l1.map Tuple.Fields = l2.map Tuple.Fields) :
    l1.flatMap writeTuple = l2.flatMap writeTuple := by
  induction l1 generalizing l2 with
  | nil =>
    cases l2 with
    | nil => rfl
    | cons b bs => simp at h
  | cons a as ih =>
    cases l2 with
    | nil => simp at h
    | cons b bs =>
      simp only [List.map_cons, List.cons.injEq] at h
      simp only [List.flatMap_cons, writeTuple_eq_of_fields h.1, ih h.2]

theorem take4_natLE (a : Nat) (rest : List Nat) : (natLE 4 a ++ rest).take 4 = natLE 4 a := by
  generalize hg : natLE 4 a = l
  have h : l.length = 4 := by rw [← hg]; exact natLE_length 4 a
  rw [← h, List.take_left]

theorem drop4_natLE (a : Nat) (rest : List Nat) : (natLE 4 a ++ rest).drop 4 = rest := by
  generalize hg : natLE 4 a = l
  have h : l.length = 4 := by rw [← hg]; exact natLE_length 4 a
  rw [← h, List.drop_left]

theorem leNat4 {a : Nat} (h : a < 4294967296) : leNat (natLE 4 a) = a := by
  apply leNat_natLE_of_lt
  norm_num
  omega

/-- Parsing the serialization of a well-formed page succeeds and rebuilds the
occupied tuples densely into slots 0..numUsed-1 with renumbered rids; the
parsing page q only contributes its descriptor and page number
(initFromBuffer reads nothing else from its receiver). -/
theorem initFromBuffer_toBuffer (p q : heapPage) (hwf : wfPage p)
    (hdesc : q.desc = p.desc) (hpage : q.pageNo = p.pageNo) :
    ∃ bs, p.toBuffer = some bs ∧
      q.initFromBuffer bs = some
        { desc := p.desc, numSlots := p.numSlots, numUsed := p.numUsed, dirty := false
          tuples := (reparsed p.desc p.pageNo 0 p.occupied).map some
            ++ List.replicate (p.numSlots - p.numUsed) none
          pageNo := p.pageNo } := by
  obtain ⟨hlen, hused, htup, hfit, hbpt⟩ := hwf
  have hocc_le : p.occupied.length ≤ p.numSlots := by
    have := List.length_filterMap_le id p.tuples
    unfold heapPage.occupied
    omega
  have hnu_le : p.numUsed ≤ p.numSlots := by omega
  have hns_small : p.numSlots < 4294967296 := by
    unfold PageSize at hfit
    nlinarith
  have hnu_small : p.numUsed < 4294967296 := by omega
  have htb_len : (p.occupied.flatMap writeTuple).length
      = p.occupied.length * p.desc.bytesPerTuple := flatMap_writeTuple_length htup
  have hbody_le : 8 + (p.occupied.flatMap writeTuple).length ≤ PageSize := by
    rw [htb_len]
    have : p.occupied.length * p.desc.bytesPerTuple ≤ p.numSlots * p.desc.bytesPerTuple :=
      Nat.mul_le_mul_right _ hocc_le
    omega
  have hL : (natLE 4 p.numSlots ++ natLE 4 p.numUsed ++ p.occupied.flatMap writeTuple).length
      = 8 + (p.occupied.flatMap writeTuple).length := by
    simp only [List.length_append, natLE_length]
  refine ⟨(natLE 4 p.numSlots ++ natLE 4 p.numUsed ++ p.occupied.flatMap writeTuple)
    ++ List.replicate (PageSize - (8 + (p.occupied.flatMap writeTuple).length)) 0, ?_, ?_⟩
  · unfold heapPage.toBuffer
    rw [if_neg (by rw [hL]; omega), hL]
  · have hshape : natLE 4 p.numSlots ++ natLE 4 p.numUsed ++ p.occupied.flatMap writeTuple
        ++ List.replicate (PageSize - (8 + (p.occupied.flatMap writeTuple).length)) 0
        = natLE 4 p.numSlots ++ (natLE 4 p.numUsed ++ (p.occupied.flatMap writeTuple
          ++ List.replicate (PageSize - (8 + (p.occupied.flatMap writeTuple).length)) 0)) := by
      simp [List.append_assoc]
    rw [hshape]
    unfold heapPage.initFromBuffer
    rw [if_neg (by simp only [List.length_append, natLE_length]; omega)]
    rw [take4_natLE, drop4_natLE]
    rw [if_neg (by simp only [List.length_append, natLE_length]; omega)]
    rw [take4_natLE, drop4_natLE]
    rw [leNat4 hns_small, leNat4 hnu_small]
    rw [if_neg (by omega)]
    have hread := readTuples_flatMap p.desc p.pageNo p.occupied htup 0
      (List.replicate (PageSize - (8 + (p.occupied.flatMap writeTuple).length)) 0)
    rw [hused, hdesc, hpage, hread]

/-! ## Buffer pool and heap file (src/godb/buffer_pool.go, src/godb/heap_file.go)

A single heap file is modelled, so the page key heapHash (backingFile, pageNo)
collapses to the page number. Go mutates pages through shared pointers; the
functional model threads an explicit state and writes mutated pages back into
the cache, which is observationally the same. Go map iteration order is
unspecified; the eviction scan is modelled in cache insertion order, which is
one admissible order, and no theorem below depends on which clean page is
picked. -/

/-- Association-list lookup with Nat keys (the map read pages[key]). -/
def assocGet {β : Type} : List (Nat × β) → Nat → Option β
  | [], _ => none
  | (k, v) :: rest, key => if k = key then some v else assocGet rest key

/-- Association-list update or insert (the map write pages[key] = v). -/
def assocSet {β : Type} : List (Nat × β) → Nat → β → List (Nat × β)
  | [], key, v => [(key, v)]
  | (k, w) :: rest, key, v =>
    if k = key then (key, v) :: rest else (k, w) :: assocSet rest key v

/-- Combined state of one BufferPool (buffer_pool.go:18-23) and one HeapFile
(heap_file.go:17-26): the page cache and its capacity, the bytes of the
backing file as a page-indexed map, and the HeapFile bookkeeping fields. -/
structure HFState where
  cache : List (Nat × heapPage)
  maxPages : Nat
  disk : List (Nat × List Nat)
  desc : TupleDesc
  numPages : Nat
  lastEmptyPage : Int
deriving DecidableEq, Repr

/-- Remove the first clean entry of the cache; none when every entry is dirty
(the loop of evictPage, buffer_pool.go:99-104). -/
def evictFirstClean : List (Nat × heapPage) → Option (List (Nat × heapPage))
  | [] => none
  | kp :: rest =>
    if kp.2.dirty = false then some rest
    else
      match evictFirstClean rest with
      | none => none
      | some rest2 => some (kp :: rest2)

/-- BufferPool.evictPage (buffer_pool.go:93-107): nothing to do below
capacity, otherwise drop the first clean page, or fail with BufferPoolFull
when every cached page is dirty. -/
def evictPage (s : HFState) : Except GoErr HFState :=
  if s.cache.length < s.maxPages then .ok s
  else
    match evictFirstClean s.cache with
    | some cache2 => .ok { s with cache := cache2 }
    | none => .error .bufferPoolFull

/-- HeapFile.readPage (heap_file.go:160-183): read the PageSize bytes of the
page, build a fresh heapPage and parse the bytes into it. The source drops the
error of initFromBuffer (line 181), and initFromBuffer mutates its receiver
only on success, so a parse failure silently yields the fresh empty page. -/
def HeapFile.readPage (s : HFState) (pageNo : Nat) : Except GoErr heapPage :=
  match assocGet s.disk pageNo with
  | none => .error .ioErr
  | some bs =>
    if bs.length ≠ PageSize then .error .ioErr
    else
      match (newHeapPage s.desc pageNo).initFromBuffer bs with
      | some pg => .ok pg
      | none => .ok (newHeapPage s.desc pageNo)

/-- BufferPool.GetPage (buffer_pool.go:74-90): return the cached page, or
evict if at capacity, read the page from disk and cache it. On an eviction
failure the cache is untouched; on a read failure an eviction that already
happened persists (the Go map was mutated in place). -/
def BufferPool.GetPage (s : HFState) (pageNo : Nat) : Except GoErr heapPage × HFState :=
  match assocGet s.cache pageNo with
  | some pg => (.ok pg, s)
  | none =>
    match evictPage s with
    | .error e => (.error e, s)
    | .ok s1 =>
      match HeapFile.readPage s1 pageNo with
      | .error e => (.error e, s1)
      | .ok pg => (.ok pg, { s1 with cache := s1.cache ++ [(pageNo, pg)] })

/-- HeapFile.flushPage (heap_file.go:311-326): write the serialization of the
page at its offset. -/
def HeapFile.flushPage (s : HFState) (p : heapPage) : Except GoErr HFState :=
  match p.toBuffer with
  | none => .error .malformedData
  | some bs => .ok { s with disk := assocSet s.disk p.pageNo bs }

/-- The probe loop of HeapFile.insertTuple (heap_file.go:210-233) over the
list of page indices it visits: fetch page p, skip it when it has no empty
slot, otherwise re-fetch with write permission and insert; a PageFull error
from the page is swallowed and the loop moves on, any other error is
returned. Returns true when the tuple was placed in an existing page. -/
def insertProbe (t : Tuple) (s : HFState) : List Nat → Except GoErr Bool × HFState
  | [] => (.ok false, s)
  | p :: rest =>
    match BufferPool.GetPage s p with
    | (.error e, s1) => (.error e, s1)
    | (.ok pg, s1) =>
      if pg.getNumEmptySlots = 0 then insertProbe t s1 rest
      else
        match BufferPool.GetPage s1 p with
        | (.error e, s2) => (.error e, s2)
        | (.ok pg2, s2) =>
          match pg2.insertTuple t with
          | .error e =>
            if e = .pageFull then insertProbe t s2 rest else (.error e, s2)
          | .ok (_, pg3) =>
            (.ok true,
              { s2 with cache := assocSet s2.cache p { pg3 with dirty := true }
                        lastEmptyPage := (p : Int) })

/-- HeapFile.insertTuple (heap_file.go:199-258): probe the existing pages from
the lastEmptyPage hint (the index list start, start+1, ..., numPages-1); when
none accepts the tuple, build a fresh page at index numPages, flush its empty
image, bump numPages, re-fetch the page via the buffer pool and insert there,
marking it dirty and updating the hint. The hint is -1 or a valid page index
in every reachable state; the probe start is its toNat. -/
def HeapFile.insertTuple (t : Tuple) (s : HFState) : Except GoErr Unit × HFState :=
  let start : Nat := if s.lastEmptyPage = -1 then 0 else s.lastEmptyPage.toNat
  match insertProbe t s (List.range' start (s.numPages - start)) with
  | (.error e, s1) => (.error e, s1)
  | (.ok true, s1) => (.ok (), s1)
  | (.ok false, s1) =>
    let hp := newHeapPage s1.desc s1.numPages
    match HeapFile.flushPage s1 hp with
    | .error e => (.error e, s1)
    | .ok s2 =>
      let p := s2.numPages
      let s3 := { s2 with lastEmptyPage := (s2.numPages : Int), numPages := s2.numPages + 1 }
      match BufferPool.GetPage s3 p with
      | (.error e, s4) => (.error e, s4)
      | (.ok pg, s4) =>
        match pg.insertTuple t with
        | .error e => (.error e, s4)
        | .ok (_, pg2) =>
          (.ok (),
            { s4 with cache := assocSet s4.cache p { pg2 with dirty := true }
                      lastEmptyPage := (p : Int) })

/-- HeapFile.deleteTuple (heap_file.go:270-304): check the rid, fetch the page
with write permission, mark it dirty BEFORE calling the page-level delete,
write back, and lower the lastEmptyPage hint on success. -/
def HeapFile.deleteTuple (t : Tuple) (s : HFState) : Except GoErr Unit × HFState :=
  match t.Rid with
  | none => (.error .tupleNotFound, s)
  | some rid =>
    if rid.pageNo < 0 ∨ (s.numPages : Int) ≤ rid.pageNo then (.error .tupleNotFound, s)
    else
      match BufferPool.GetPage s rid.pageNo.toNat with
      | (.error e, s1) => (.error e, s1)
      | (.ok hp, s1) =>
        let hp1 := { hp with dirty := true }
        let s2 := { s1 with cache := assocSet s1.cache rid.pageNo.toNat hp1 }
        match hp1.deleteTuple rid with
        | .error e => (.error e, s2)
        | .ok hp2 =>
          let s3 := { s2 with cache := assocSet s2.cache rid.pageNo.toNat hp2 }
          if rid.pageNo < s3.lastEmptyPage then (.ok (), { s3 with lastEmptyPage := rid.pageNo })
          else (.ok (), s3)

/-- Run a sequence of GetPage calls, threading the state (the claims about the
buffer-pool invariant quantify over these sequences). -/
def runGetPages (s : HFState) : List Nat → HFState
  | [] => s
  | k :: ks => runGetPages (BufferPool.GetPage s k).2 ks

/-! ## Insert and Delete operators (src/unnamed/part_000 InsertOp,
src/godb/delete_op.go DeleteOp)

The child operator is modelled as the list of tuples its iterator yields (no
child errors), and the target DBFile as the list of its tuples, with
insertTuple appending and deleteTuple erasing by rid; the heap-file level
failure modes of those calls are settled separately (claims about
HeapFile.insertTuple and HeapFile.deleteTuple). -/

/-- The one-column count descriptor of InsertOp and DeleteOp
(part_000:245-247, delete_op.go:17-19). -/
def countDesc : TupleDesc :=
  { Fields := [{ Fname := "count", TableQualifier := "", Ftype := .intType }] }

/-- The tuple {count: n} the operators return (count is a Go int64). -/
def mkCountTuple (n : Int) : Tuple :=
  { Desc := countDesc, Fields := [.IntField n], Rid := none }

/-- Drain loop of InsertOp.Iterator (part_000:263-277): insert every child
tuple into the file, counting the successful inserts. -/
def dbInsertAll (file : List Tuple) : List Tuple → List Tuple × Nat
  | [] => (file, 0)
  | t :: ts =>
    let r := dbInsertAll (file ++ [t]) ts
    (r.1, r.2 + 1)

/-- Drain loop of DeleteOp.Iterator (delete_op.go:34-48): delete every child
tuple from the file by rid, counting the successful deletes. -/
def dbDeleteAll (file : List Tuple) : List Tuple → List Tuple × Nat
  | [] => (file, 0)
  | t :: ts =>
    let r := dbDeleteAll (file.eraseP (fun u => decide (u.Rid = t.Rid))) ts
    (r.1, r.2 + 1)

/-- One pull of the InsertOp iterator closure (part_000:254-284): state is the
completed flag and the file contents. count starts at 0 on EVERY pull; the
drain runs only when not yet completed; the closure then returns the count
tuple unconditionally, so a completed iterator returns {count: 0}, never
nil. -/
def insertOpPull (child : List Tuple) : Bool × List Tuple → Option Tuple × (Bool × List Tuple)
  | (completed, file) =>
    if completed = false then
      let r := dbInsertAll file child
      (some (mkCountTuple (r.2 : Int)), (true, r.1))
    else (some (mkCountTuple 0), (completed, file))

/-- One pull of the DeleteOp iterator closure (delete_op.go:25-55), same shape
as insertOpPull. -/
def deleteOpPull (child : List Tuple) : Bool × List Tuple → Option Tuple × (Bool × List Tuple)
  | (completed, file) =>
    if completed = false then
      let r := dbDeleteAll file child
      (some (mkCountTuple (r.2 : Int)), (true, r.1))
    else (some (mkCountTuple 0), (completed, file))

/-- The value of the n-th pull (0-indexed) of an iterator with step function
step from state s0. -/
def pullN {σ : Type} (step : σ → Option Tuple × σ) (s0 : σ) : Nat → Option Tuple
  | 0 => (step s0).1
  | n + 1 => pullN step (step s0).2 n

/-! ## OrderBy (src/godb/order_by_op.go)

Modelled from the spec where the source is missing: order-by key expressions
are field projections (a key is the index of the field it extracts) and
Tuple.compareField compares the extracted values, Ints by value and strings
bytewise lexicographically; the expression and comparison code lives in the
tuple file, which is not under src/. multiSorter.Less itself is translated
from order_by_op.go:62-96. -/

/-- Bytewise lexicographic comparison of two byte strings. -/
def lexBytes : List Nat → List Nat → Ordering
  | [], [] => .eq
  | [], _ :: _ => .lt
  | _ :: _, [] => .gt
  | a :: as, b :: bs =>
    if a < b then .lt else if b < a then .gt else lexBytes as bs

/-- Modelled from the spec: compare two field values of the same kind; none on
a kind mismatch (compareField would return an error there). -/
def compareVals : DBValue → DBValue → Option Ordering
  | .IntField a, .IntField b =>
    some (if a < b then .lt else if b < a then .gt else .eq)
  | .StringField a, .StringField b => some (lexBytes a b)
  | _, _ => none

/-- Modelled from the spec: Tuple.compareField with a field-projection
expression: extract field e of both tuples and compare; none when the field is
missing (compareField would return an error there, which Less ignores — such
pairs are outside the well-typed states the theorems quantify over). -/
def compareField (p q : Tuple) (e : Nat) : Option Ordering :=
  match p.Fields[e]?, q.Fields[e]? with
  | some a, some b => compareVals a b
  | _, _ => none

/-- The key loop of multiSorter.Less (order_by_op.go:62-96), walking the
still-unprocessed suffixes of orderBy and ascending in step (position k of
the source loop is the head): swap the operands when the key is descending,
return on the first discriminating key. When every key compares equal the
source leaves the loop with k = len(orderBy) and reads ms.ascending[k] and
ms.orderBy[k] (order_by_op.go:88-95): both reads are OUT OF RANGE and Go
panics; that exit (orderBy suffix empty), an ascending list exhausted before
the key list, and an ignored compareField error are all modelled as none. -/
def lessKeys (p q : Tuple) : List Nat → List Bool → Option Bool
  | [], _ => none
  | _ :: _, [] => none
  | e :: obRest, a :: ascRest =>
    match (if a then compareField p q e else compareField q p e) with
    | some .lt => some true
    | some .gt => some false
    | some .eq => lessKeys p q obRest ascRest
    | none => none

/-- multiSorter.Less (order_by_op.go:62-96) over the buffered tuple slice:
fetch data[i] and data[j] and run the key loop; none marks a Go panic (index
out of range on data, ascending, or orderBy). -/
def multiSorterLess (data : List Tuple) (ob : List Nat) (asc : List Bool)
    (i j : Nat) : Option Bool :=
  match data[i]?, data[j]? with
  | some p, some q => lessKeys p q ob asc
  | _, _ => none

/-- Whether some key of the list strictly discriminates the pair, all keys
before it comparing equal with both comparisons defined (the exact condition
under which the Less loop returns before running off the end of the key
list). -/
def discriminatesB (p q : Tuple) : List Nat → List Bool → Bool
  | [], _ => false
  | _ :: _, [] => false
  | e :: obRest, a :: ascRest =>
    match (if a then compareField p q e else compareField q p e) with
    | some .lt => true
    | some .gt => true
    | some .eq => discriminatesB p q obRest ascRest
    | none => false

/-- OrderBy.Iterator construction (order_by_op.go:125-160) over a child
modelled as the list its iterator yields: the body drains the child into a
buffer, sorts it in place with sort.Sort — whose result order Go leaves
implementation-defined for a comparator (multiSorterLess) that is not total —
and then, at line 159, returns the streaming closure TOGETHER WITH the
leftover template error fmt.Errorf with text "order_by_op.Iterator not
implemented", marked by the source comment "replace me". Only the error
component is modelled here: it does not depend on the buffer, and a Go caller
checking the returned error sees every construction fail. -/
def orderByIteratorErr (child : List Tuple) (ob : List Nat) (asc : List Bool) : Option GoErr :=
  some .notImplemented

/-! ## WAL recovery (src/godb/buffer_pool_extra.go)

The log is modelled as the list of its records; page images are opaque values
(Nat) keyed by their page key (Nat): the REDO and UNDO passes only ever evict
a key from the cache and flush an image through the owning file, so nothing
else of the page is observable here. Record offsets are dropped: the losers
map tid -> offset is read only through membership, so it is a tid list. -/

/-- Log record kinds (spec section 4.4; the log file source is not under
src/). An update carries the key and image of its before page and of its
after page. -/
inductive LogRecord where
  | beginRec (tid : Nat)
  | commitRec (tid : Nat)
  | abortRec (tid : Nat)
  | updateRec (tid : Nat) (beforeKey beforeImg afterKey afterImg : Nat)
deriving DecidableEq, Repr

/-- The transaction id of a record (record.Tid()). -/
def LogRecord.tid : LogRecord → Nat
  | .beginRec t => t
  | .commitRec t => t
  | .abortRec t => t
  | .updateRec t _ _ _ _ => t

/-- State touched by recovery: the log contents, the data pages on disk and
the set of cached page keys (recovery only ever deletes cache entries). -/
structure LogState where
  log : List LogRecord
  disk : List (Nat × Nat)
  cache : List Nat
deriving DecidableEq, Repr

/-- One step of the forward REDO pass (buffer_pool_extra.go:66-89).
BeginRecord records the transaction in losers. The AbortRecord case
(line 72) has an EMPTY body, and Go switch cases do not fall through: an
Abort record leaves losers UNCHANGED, even though the comment above the
CommitRecord case (line 74) says a committed or aborted transaction is no
longer a loser. CommitRecord removes the transaction. UpdateRecord evicts the
after-page key from the cache and flushes the after image. -/
def redoStep (st : LogState × List Nat) (r : LogRecord) : LogState × List Nat :=
  match r with
  | .beginRec t => (st.1, if t ∈ st.2 then st.2 else st.2 ++ [t])
  | .abortRec _ => st
  | .commitRec t => (st.1, st.2.filter (fun x => x ≠ t))
  | .updateRec _ _ _ ak ai =>
    ({ st.1 with
        cache := st.1.cache.filter (fun x => x ≠ ak)
        disk := assocSet st.1.disk ak ai }, st.2)

/-- The reverse UNDO pass (buffer_pool_extra.go:95-131) over the reversed
record list: stops as soon as losers is empty; for a loser, an Update record
evicts the before-page key and flushes the before image, and a Begin record
appends a synthetic Abort to the log (at end-of-file, with the read position
restored afterwards) and removes the transaction from losers. -/
def undoLoop : List LogRecord → LogState → List Nat → LogState × List Nat
  | [], st, losers => (st, losers)
  | r :: rest, st, losers =>
    if losers = [] then (st, losers)
    else
      if r.tid ∈ losers then
        match r with
        | .updateRec _ bk bi _ _ =>
          undoLoop rest
            { st with
                cache := st.cache.filter (fun x => x ≠ bk)
                disk := assocSet st.disk bk bi } losers
        | .beginRec t =>
          undoLoop rest { st with log := st.log ++ [.abortRec t] }
            (losers.filter (fun x => x ≠ t))
        | _ => undoLoop rest st losers
      else undoLoop rest st losers

/-- BufferPool.Recover (buffer_pool_extra.go:54-138): the forward REDO pass
over the whole log followed by the reverse UNDO pass over the same records
(the Abort records appended during UNDO sit beyond the saved read position and
are not revisited within the run). -/
def Recover (st : LogState) : LogState :=
  let fwd := st.log.foldl redoStep (st, [])
  (undoLoop fwd.1.log.reverse fwd.1 fwd.2).1

/-! ## Concrete fixtures used by counterexamples and witnesses -/

/-- A one-column Int schema. -/
def intDesc : TupleDesc :=
  { Fields := [{ Fname := "age", TableQualifier := "", Ftype := .intType }] }

/-- A one-field Int tuple without a rid. -/
def tupInt (n : Int) : Tuple :=
  { Desc := intDesc, Fields := [.IntField n], Rid := none }

/-- A 512-column Int schema: bytesPerTuple = 4096 > PageSize - 8, so a heap
page of this schema has zero slots. -/
def bigDesc : TupleDesc :=
  { Fields := List.replicate 512 { Fname := "f", TableQualifier := "", Ftype := FType.intType } }

/-- The crash log of a transaction that began, updated page 7 (before image
10, after image 20) and then aborted before the crash. -/
def c1Log : List LogRecord :=
  [.beginRec 1, .updateRec 1 7 10 7 20, .abortRec 1]

/-- A fresh heap file of the zero-slot schema behind an empty buffer pool. -/
def c7CexState : HFState :=
  { cache := [], maxPages := 10, disk := [], desc := bigDesc, numPages := 0, lastEmptyPage := -1 }

/-! ## Claim theorems -/

/-- C1: the claim says a Commit(t) or Abort(t) record scanned by the forward
REDO pass removes t from the loser set, so a transaction whose log contains an
Abort gets no before-image restore and no synthetic Abort from the UNDO pass.
The code disagrees: the AbortRecord case of the forward switch has an empty
body (buffer_pool_extra.go:72) and Go switch cases do not fall through, so on
the log [Begin(1), Update(1, page 7: 10 -> 20), Abort(1)] transaction 1 stays
a loser, the UNDO pass rewrites page 7 back to the before image 10 (the claim
says the after image 20 would remain) and appends a synthetic Abort(1) to the
log. This theorem evaluates Recover at that log. -/
theorem C1_recover_scans_abort_without_removing_loser :
    Recover { log := c1Log, disk := [], cache := [] }
      = { log := c1Log ++ [.abortRec 1], disk := [(7, 10)], cache := [] } := by
  decide

/-- C4: the claim says Recover is idempotent on disk contents (data pages and
log file). It is not: on the log [Begin(1)] the first run appends a synthetic
Abort(1), and because the forward pass does not remove a transaction at its
Abort record (buffer_pool_extra.go:72, empty switch case), the second run
still sees transaction 1 as a loser and appends a second Abort(1), so the log
file differs between the runs. -/
theorem C4_recover_not_idempotent :
    Recover (Recover { log := [.beginRec 1], disk := [], cache := [] })
      ≠ Recover { log := [.beginRec 1], disk := [], cache := [] } := by
  decide

/-- C3: the claim says OrderBy iterator construction succeeds for every child
and non-empty key list. It cannot: OrderBy.Iterator builds the sorted buffer
and its streaming closure, but returns them together with the leftover
template error fmt.Errorf with text "order_by_op.Iterator not implemented"
(order_by_op.go:159, marked by the source comment "replace me"), so every
construction hands a non-nil error to the caller. -/
theorem C3_orderby_iterator_construction_error (child : List Tuple) (ob : List Nat)
    (asc : List Bool) :
    orderByIteratorErr child ob asc = some .notImplemented ∧
      orderByIteratorErr child ob asc ≠ none := by
  exact ⟨rfl, by simp [orderByIteratorErr]⟩

/-- C2 counterexample: the claim says every pull after the first yields the
nil end-of-stream sentinel. On the one-tuple child [tupInt 5] the second pull
(index 1) of both the Insert and the Delete operator iterator returns the
tuple with count 0, not nil: the closure returns the count tuple
unconditionally (part_000:282, delete_op.go:53). -/
theorem C2_counterexample :
    pullN (insertOpPull [tupInt 5]) (false, []) 1 = some (mkCountTuple 0) ∧
      pullN (insertOpPull [tupInt 5]) (false, []) 1 ≠ none ∧
      pullN (deleteOpPull [tupInt 5]) (false, [tupInt 5]) 1 = some (mkCountTuple 0) ∧
      pullN (deleteOpPull [tupInt 5]) (false, [tupInt 5]) 1 ≠ none := by
  decide

theorem dbInsertAll_spec (l : List Tuple) :
    ∀ file, dbInsertAll file l = (file ++ l, l.length) := by
  induction l with
  | nil => intro file; simp [dbInsertAll]
  | cons t ts ih =>
    intro file
    simp [dbInsertAll, ih]

theorem dbDeleteAll_count (l : List Tuple) : ∀ file, (dbDeleteAll file l).2 = l.length := by
  induction l with
  | nil => intro file; rfl
  | cons t ts ih =>
    intro file
    simp [dbDeleteAll, ih]

theorem insertOpPull_completed (child : List Tuple) (f : List Tuple) :
    ∀ n, pullN (insertOpPull child) (true, f) n = some (mkCountTuple 0) := by
  intro n
  induction n generalizing f with
  | zero => rfl
  | succ n ih => exact ih f

theorem deleteOpPull_completed (child : List Tuple) (f : List Tuple) :
    ∀ n, pullN (deleteOpPull child) (true, f) n = some (mkCountTuple 0) := by
  intro n
  induction n generalizing f with
  | zero => rfl
  | succ n ih => exact ih f

/-- C2 as amended: the first pull of an Insert (resp. Delete) operator
iterator drains the child, applies the file insert (resp. delete) to each
child tuple and yields the one tuple {count: N} with N the number of
operations performed; every later pull yields the tuple {count: 0} — not the
nil end-of-stream sentinel the claim stated. -/
theorem C2_insert_delete_count_pulls (child file : List Tuple) (n : Nat) (h : 1 ≤ n) :
    pullN (insertOpPull child) (false, file) 0 = some (mkCountTuple (child.length : Int)) ∧
      (insertOpPull child (false, file)).2 = (true, file ++ child) ∧
      pullN (insertOpPull child) (false, file) n = some (mkCountTuple 0) ∧
      pullN (deleteOpPull child) (false, file) 0 = some (mkCountTuple (child.length : Int)) ∧
      pullN (deleteOpPull child) (false, file) n = some (mkCountTuple 0) := by
  obtain ⟨m, rfl⟩ : ∃ m, n = m + 1 := ⟨n - 1, by omega⟩
  refine ⟨?_, ?_, ?_, ?_, ?_⟩
  · simp [pullN, insertOpPull, dbInsertAll_spec]
  · simp [insertOpPull, dbInsertAll_spec]
  · show pullN (insertOpPull child) (insertOpPull child (false, file)).2 m = some (mkCountTuple 0)
    have h2 : (insertOpPull child (false, file)).2 = (true, file ++ child) := by
      simp [insertOpPull, dbInsertAll_spec]
    rw [h2]
    exact insertOpPull_completed child (file ++ child) m
  · simp [pullN, deleteOpPull, dbDeleteAll_count]
  · show pullN (deleteOpPull child) (deleteOpPull child (false, file)).2 m = some (mkCountTuple 0)
    have h2 : (deleteOpPull child (false, file)).2 = (true, (dbDeleteAll file child).1) := by
      simp [deleteOpPull]
    rw [h2]
    exact deleteOpPull_completed child (dbDeleteAll file child).1 m

/-- C2 witness: the amended statement applied to the one-tuple child, empty
file and second pull. -/
theorem C2_witness :
    pullN (insertOpPull [tupInt 5]) (false, []) 0 = some (mkCountTuple 1) ∧
      pullN (insertOpPull [tupInt 5]) (false, []) 1 = some (mkCountTuple 0) := by
  have h := C2_insert_delete_count_pulls [tupInt 5] [] 1 (by decide)
  exact ⟨h.1, h.2.2.1⟩

/-- C9 counterexample: the claim says multiSorter.Less returns a boolean for
every pair of buffered tuples, including pairs equal on every key. On the
buffer [tupInt 5, tupInt 5] with the single ascending key 0 the pair (0, 1)
compares equal on every key, the loop exits with k = len(orderBy), and the
source then reads ms.ascending[k] and ms.orderBy[k], both out of range: Go
panics instead of returning a boolean (modelled as none). -/
theorem C9_counterexample :
    multiSorterLess [tupInt 5, tupInt 5] [0] [true] 0 1 = none := by
  decide

/-- C9 as amended: multiSorter.Less does return a boolean without any
out-of-range index for every pair of in-range buffered tuples on which some
key discriminates (all keys before it comparing equal); only when every key of
the list compares equal — including the empty key list — does the code read
index k = len(orderBy) of the ascending and orderBy slices, which is out of
range and panics. -/
theorem C9_less_total_on_discriminating_keys (data : List Tuple) (ob : List Nat)
    (asc : List Bool) (i j : Nat) (p q : Tuple)
    (hi : data[i]? = some p) (hj : data[j]? = some q)
    (hd : discriminatesB p q ob asc = true) :
    ∃ b, multiSorterLess data ob asc i j = some b := by
  unfold multiSorterLess
  rw [hi, hj]
  clear hi hj
  induction ob generalizing asc with
  | nil => simp [discriminatesB] at hd
  | cons e obRest ih =>
    cases asc with
    | nil => simp [discriminatesB] at hd
    | cons a ascRest =>
      unfold discriminatesB at hd
      unfold lessKeys
      cases hc : (if a then compareField p q e else compareField q p e) with
      | none => rw [hc] at hd; simp at hd
      | some ord =>
        rw [hc] at hd
        cases ord with
        | lt => exact ⟨true, rfl⟩
        | gt => exact ⟨false, rfl⟩
        | eq => exact ih ascRest hd

/-- C9 witness: the amended statement applied to a discriminating pair. -/
theorem C9_witness : ∃ b, multiSorterLess [tupInt 1, tupInt 2] [0] [true] 0 1 = some b :=
  C9_less_total_on_discriminating_keys [tupInt 1, tupInt 2] [0] [true] 0 1
    (tupInt 1) (tupInt 2) rfl rfl (by decide)

/-- C8: for every schema with a nonzero tuple width (the spec formula is
undefined and the Go int32 division panics at width zero), a fresh heap page
built by newHeapPage has numSlots = floor((PageSize - 8) / bytesPerTuple):
the value satisfies the floor characterization, and the slot array really has
that many cells. -/
theorem C8_num_slots_formula (desc : TupleDesc) (pageNo : Nat)
    (h : 0 < desc.bytesPerTuple) :
    (newHeapPage desc pageNo).numSlots = (PageSize - 8) / desc.bytesPerTuple ∧
      (newHeapPage desc pageNo).numSlots * desc.bytesPerTuple ≤ PageSize - 8 ∧
      PageSize - 8 < ((newHeapPage desc pageNo).numSlots + 1) * desc.bytesPerTuple ∧
      (newHeapPage desc pageNo).tuples.length = (newHeapPage desc pageNo).numSlots := by
  refine ⟨rfl, Nat.div_mul_le_self _ _, ?_, by simp [newHeapPage]⟩
  have h1 := Nat.div_add_mod (PageSize - 8) desc.bytesPerTuple
  have h2 := Nat.mod_lt (PageSize - 8) h
  show PageSize - 8 < ((PageSize - 8) / desc.bytesPerTuple + 1) * desc.bytesPerTuple
  rw [Nat.add_mul, one_mul, Nat.mul_comm]
  omega

/-- C8 witness: the formula at the one-column Int schema: 511 slots of 8
bytes. -/
theorem C8_witness :
    (newHeapPage intDesc 0).numSlots = (PageSize - 8) / intDesc.bytesPerTuple ∧
      (newHeapPage intDesc 0).numSlots * intDesc.bytesPerTuple ≤ PageSize - 8 ∧
      PageSize - 8 < ((newHeapPage intDesc 0).numSlots + 1) * intDesc.bytesPerTuple ∧
      (newHeapPage intDesc 0).tuples.length = (newHeapPage intDesc 0).numSlots :=
  C8_num_slots_formula intDesc 0 (by decide)

theorem toBuffer_congr {a b : heapPage} (h1 : a.numSlots = b.numSlots)
    (h2 : a.numUsed = b.numUsed)
    (h3 : a.occupied.flatMap writeTuple = b.occupied.flatMap writeTuple) :
    a.toBuffer = b.toBuffer := by
  unfold heapPage.toBuffer
  rw [h1, h2, h3]

/-- The page initFromBuffer rebuilds from the serialization of p: same header
values, occupied tuples repacked densely into the low slots with renumbered
rids, dirty cleared. -/
def repackedPage (p : heapPage) : heapPage :=
  { desc := p.desc, numSlots := p.numSlots, numUsed := p.numUsed, dirty := false
    tuples := (reparsed p.desc p.pageNo 0 p.occupied).map some
      ++ List.replicate (p.numSlots - p.numUsed) none
    pageNo := p.pageNo }

/-- C5: serializing a well-formed heap page and parsing the bytes back (the
readPage path: initFromBuffer into a fresh page of the same schema and page
number) yields a page with the same multiset of tuple field-vectors — in fact
the same list, repacked densely into the low slots — and re-serializing the
parsed page reproduces the original bytes exactly, in particular whenever
every slot of the original page was occupied. -/
theorem C5_heap_page_roundtrip (p : heapPage) (h : wfPage p) :
    ∃ bs, p.toBuffer = some bs ∧
      (newHeapPage p.desc p.pageNo).initFromBuffer bs = some (repackedPage p) ∧
      Multiset.ofList ((repackedPage p).occupied.map Tuple.Fields)
        = Multiset.ofList (p.occupied.map Tuple.Fields) ∧
      ((∀ o ∈ p.tuples, o.isSome = true) → (repackedPage p).toBuffer = some bs) := by
  obtain ⟨bs, htb, hparse⟩ :=
    initFromBuffer_toBuffer p (newHeapPage p.desc p.pageNo) h rfl rfl
  have hq_occ : (repackedPage p).occupied = reparsed p.desc p.pageNo 0 p.occupied :=
    filterMap_id_map_some_append_none _ _
  refine ⟨bs, htb, hparse, ?_, fun _ => ?_⟩
  · rw [hq_occ, reparsed_fields]
  · refine Eq.trans (@toBuffer_congr (repackedPage p) p rfl rfl ?_) htb
    exact flatMap_writeTuple_congr (by rw [hq_occ, reparsed_fields])

/-- A two-slot Int page holding one tuple. -/
def onePage : heapPage :=
  { desc := intDesc, numSlots := 2, numUsed := 1, dirty := false,
    tuples := [some (tupInt 7), none], pageNo := 0 }

/-- C5 witness: the round trip at a two-slot Int page holding one tuple. -/
theorem C5_witness :
    ∃ bs, onePage.toBuffer = some bs ∧
      (newHeapPage onePage.desc onePage.pageNo).initFromBuffer bs
        = some (repackedPage onePage) ∧
      Multiset.ofList ((repackedPage onePage).occupied.map Tuple.Fields)
        = Multiset.ofList (onePage.occupied.map Tuple.Fields) ∧
      ((∀ o ∈ onePage.tuples, o.isSome = true) → (repackedPage onePage).toBuffer = some bs) :=
  C5_heap_page_roundtrip onePage (by decide)

theorem evictPage_ok {s s' : HFState} (h : evictPage s = .ok s') :
    (s.cache.length < s.maxPages ∧ s' = s) ∨
      (¬ s.cache.length < s.maxPages ∧
        ∃ c2, evictFirstClean s.cache = some c2 ∧ s' = { s with cache := c2 }) := by
  unfold evictPage at h
  by_cases hlt : s.cache.length < s.maxPages
  · rw [if_pos hlt] at h
    injection h with h
    exact Or.inl ⟨hlt, h.symm⟩
  · rw [if_neg hlt] at h
    cases hec : evictFirstClean s.cache with
    | none => rw [hec] at h; cases h
    | some c2 =>
      rw [hec] at h
      injection h with h
      exact Or.inr ⟨hlt, c2, rfl, h.symm⟩

theorem evictFirstClean_length {c c' : List (Nat × heapPage)}
    (h : evictFirstClean c = some c') : c'.length + 1 = c.length := by
  induction c generalizing c' with
  | nil => cases h
  | cons kp rest ih =>
    unfold evictFirstClean at h
    by_cases hd : kp.2.dirty = false
    · rw [if_pos hd] at h
      injection h with h
      simp [← h]
    · rw [if_neg hd] at h
      cases hrec : evictFirstClean rest with
      | none => rw [hrec] at h; cases h
      | some rest2 =>
        rw [hrec] at h
        injection h with h
        have := ih hrec
        simp [← h]
        omega

theorem evictFirstClean_dirty_mem {c c' : List (Nat × heapPage)}
    (h : evictFirstClean c = some c') {key : Nat} {pg : heapPage}
    (hm : (key, pg) ∈ c) (hd : pg.dirty = true) : (key, pg) ∈ c' := by
  induction c generalizing c' with
  | nil => cases h
  | cons kp rest ih =>
    unfold evictFirstClean at h
    by_cases hcl : kp.2.dirty = false
    · rw [if_pos hcl] at h
      injection h with h
      subst h
      rcases List.mem_cons.mp hm with heq | hmem
      · exfalso
        rw [← heq] at hcl
        simp only at hcl
        rw [hd] at hcl
        cases hcl
      · exact hmem
    · rw [if_neg hcl] at h
      cases hrec : evictFirstClean rest with
      | none => rw [hrec] at h; cases h
      | some rest2 =>
        rw [hrec] at h
        injection h with h
        subst h
        rcases List.mem_cons.mp hm with heq | hmem
        · exact List.mem_cons.mpr (Or.inl heq)
        · exact List.mem_cons.mpr (Or.inr (ih hrec hmem))

theorem evictFirstClean_all_dirty {c : List (Nat × heapPage)}
    (h : ∀ kp ∈ c, kp.2.dirty = true) : evictFirstClean c = none := by
  induction c with
  | nil => rfl
  | cons kp rest ih =>
    unfold evictFirstClean
    rw [if_neg (by simp [h kp (List.mem_cons_self kp rest)])]
    rw [ih (fun x hx => h x (List.mem_cons_of_mem kp hx))]

theorem GetPage_maxPages (s : HFState) (k : Nat) :
    ((BufferPool.GetPage s k).2).maxPages = s.maxPages := by
  unfold BufferPool.GetPage
  split
  · rfl
  · split
    · rfl
    · rename_i s1 heq
      split
      · rcases evictPage_ok heq with ⟨_, rfl⟩ | ⟨_, c2, _, rfl⟩ <;> rfl
      · rcases evictPage_ok heq with ⟨_, rfl⟩ | ⟨_, c2, _, rfl⟩ <;> rfl

theorem GetPage_cache_bound {s : HFState} (hb : s.cache.length ≤ s.maxPages) (k : Nat) :
    ((BufferPool.GetPage s k).2).cache.length ≤ s.maxPages := by
  unfold BufferPool.GetPage
  split
  · exact hb
  · split
    · exact hb
    · rename_i s1 heq
      split
      · rcases evictPage_ok heq with ⟨_, rfl⟩ | ⟨hge, c2, hec, rfl⟩
        · exact hb
        · have := evictFirstClean_length hec
          simp only
          omega
      · rcases evictPage_ok heq with ⟨hlt, rfl⟩ | ⟨hge, c2, hec, rfl⟩
        · simp only [List.length_append, List.length_cons, List.length_nil]
          omega
        · have := evictFirstClean_length hec
          simp only [List.length_append, List.length_cons, List.length_nil]
          omega

theorem runGetPages_bound {s : HFState} (hb : s.cache.length ≤ s.maxPages) (keys : List Nat) :
    (runGetPages s keys).cache.length ≤ (runGetPages s keys).maxPages := by
  induction keys generalizing s with
  | nil => exact hb
  | cons k ks ih =>
    unfold runGetPages
    apply ih
    rw [GetPage_maxPages]
    exact GetPage_cache_bound hb k

theorem GetPage_keeps_dirty {s : HFState} {k key : Nat} {pg : heapPage}
    (hm : (key, pg) ∈ s.cache) (hd : pg.dirty = true) :
    (key, pg) ∈ ((BufferPool.GetPage s k).2).cache := by
  unfold BufferPool.GetPage
  split
  · exact hm
  · split
    · exact hm
    · rename_i s1 heq
      have hmem1 : (key, pg) ∈ s1.cache := by
        rcases evictPage_ok heq with ⟨_, rfl⟩ | ⟨_, c2, hec, rfl⟩
        · exact hm
        · exact evictFirstClean_dirty_mem hec hm hd
      split
      · exact hmem1
      · exact List.mem_append.mpr (Or.inl hmem1)

theorem GetPage_full_dirty {s : HFState} {k : Nat} (hfull : s.cache.length = s.maxPages)
    (hdirty : ∀ kp ∈ s.cache, kp.2.dirty = true) (habs : assocGet s.cache k = none) :
    BufferPool.GetPage s k = (.error .bufferPoolFull, s) := by
  have he : evictPage s = .error .bufferPoolFull := by
    unfold evictPage
    rw [if_neg (by omega), evictFirstClean_all_dirty hdirty]
  unfold BufferPool.GetPage
  rw [habs, he]

/-- C6: three invariants of GetPage. First, any sequence of GetPage calls
keeps the cache within capacity. Second, a single GetPage call never removes
a dirty page from the cache. Third, when the cache is exactly full and every
cached page is dirty, requesting an uncached page fails with BufferPoolFull
and leaves the state unchanged. -/
theorem C6_buffer_pool_invariants :
    (∀ (s : HFState) (keys : List Nat), s.cache.length ≤ s.maxPages →
      (runGetPages s keys).cache.length ≤ (runGetPages s keys).maxPages) ∧
    (∀ (s : HFState) (k key : Nat) (pg : heapPage),
      (key, pg) ∈ s.cache → pg.dirty = true →
      (key, pg) ∈ ((BufferPool.GetPage s k).2).cache) ∧
    (∀ (s : HFState) (k : Nat), s.cache.length = s.maxPages →
      (∀ kp ∈ s.cache, kp.2.dirty = true) → assocGet s.cache k = none →
      BufferPool.GetPage s k = (.error .bufferPoolFull, s)) :=
  ⟨fun _ keys hb => runGetPages_bound hb keys,
   fun _ _ _ _ hm hd => GetPage_keeps_dirty hm hd,
   fun _ _ hf hd ha => GetPage_full_dirty hf hd ha⟩

/-- A dirty all-empty page fixture. -/
def dirtyPage : heapPage :=
  { desc := intDesc, numSlots := 2, numUsed := 0, dirty := true, tuples := [none, none],
    pageNo := 0 }

/-- A full buffer pool (capacity 1) whose only page is dirty. -/
def fullDirtyState : HFState :=
  { cache := [(0, dirtyPage)], maxPages := 1, disk := [], desc := intDesc, numPages := 1,
    lastEmptyPage := -1 }

/-- C6 witness: the three conjuncts applied to the full-of-dirty pool. -/
theorem C6_witness :
    (runGetPages fullDirtyState [0, 1, 2]).cache.length
        ≤ (runGetPages fullDirtyState [0, 1, 2]).maxPages ∧
      (0, dirtyPage) ∈ ((BufferPool.GetPage fullDirtyState 1).2).cache ∧
      BufferPool.GetPage fullDirtyState 1 = (.error .bufferPoolFull, fullDirtyState) :=
  ⟨C6_buffer_pool_invariants.1 fullDirtyState [0, 1, 2] (by decide),
   C6_buffer_pool_invariants.2.1 fullDirtyState 1 0 dirtyPage (by decide) (by decide),
   C6_buffer_pool_invariants.2.2 fullDirtyState 1 (by decide) (by decide) (by decide)⟩

theorem assocGet_assocSet_self {β : Type} (l : List (Nat × β)) (k : Nat) (v : β) :
    assocGet (assocSet l k v) k = some v := by
  induction l with
  | nil => simp [assocSet, assocGet]
  | cons kv rest ih =>
    unfold assocSet
    by_cases hk : kv.1 = k
    · rw [if_pos hk]
      simp [assocGet]
    · rw [if_neg hk]
      unfold assocGet
      rw [if_neg hk]
      exact ih

theorem assocSet_append_fresh {β : Type} {l : List (Nat × β)} {k : Nat}
    (h : assocGet l k = none) (w v : β) :
    assocSet (l ++ [(k, w)]) k v = l ++ [(k, v)] := by
  induction l with
  | nil => simp [assocSet]
  | cons kv rest ih =>
    unfold assocGet at h
    by_cases hk : kv.1 = k
    · rw [if_pos hk] at h
      cases h
    · rw [if_neg hk] at h
      unfold assocSet
      rw [List.cons_append, List.cons_append]
      show (if kv.1 = k then _ else _) = _
      rw [if_neg hk, ih h]

theorem toBuffer_some_length {h : heapPage} {bs : List Nat} (ht : h.toBuffer = some bs) :
    bs.length = PageSize := by
  unfold heapPage.toBuffer at ht
  set body := natLE 4 h.numSlots ++ natLE 4 h.numUsed ++ h.occupied.flatMap writeTuple with hbody
  by_cases hlen : PageSize < body.length
  · rw [if_pos hlen] at ht
    cases ht
  · rw [if_neg hlen] at ht
    injection ht with ht
    rw [← ht]
    simp only [List.length_append, List.length_replicate]
    omega

theorem newHeapPage_occupied (desc : TupleDesc) (pageNo : Nat) :
    (newHeapPage desc pageNo).occupied = [] :=
  filterMap_id_map_some_append_none [] ((PageSize - 8) / desc.bytesPerTuple)

theorem wf_newHeapPage {desc : TupleDesc} (pageNo : Nat) (h : 0 < desc.bytesPerTuple) :
    wfPage (newHeapPage desc pageNo) := by
  refine ⟨by simp [newHeapPage], ?_, ?_, ?_, h⟩
  · rw [newHeapPage_occupied]
    rfl
  · rw [newHeapPage_occupied]
    intro t ht
    cases ht
  · have hle := Nat.div_mul_le_self (PageSize - 8) desc.bytesPerTuple
    show 8 + (PageSize - 8) / desc.bytesPerTuple * desc.bytesPerTuple ≤ PageSize
    have hps : 8 ≤ PageSize := by norm_num [PageSize]
    omega

theorem repackedPage_new (desc : TupleDesc) (pageNo : Nat) :
    repackedPage (newHeapPage desc pageNo) = newHeapPage desc pageNo := by
  unfold repackedPage
  rw [newHeapPage_occupied]
  simp [newHeapPage, reparsed]

theorem slotScan_replicate {n : Nat} (h : 0 < n) :
    slotScan (List.replicate n (none : Option Tuple)) n 0 = .found 0 := by
  cases n with
  | zero => cases h
  | succ m => rw [List.replicate_succ]; rfl

theorem insertProbe_all_full (t : Tuple) (s : HFState) (ps : List Nat)
    (h : ∀ p ∈ ps, ∃ pg, assocGet s.cache p = some pg ∧ pg.getNumEmptySlots = 0) :
    insertProbe t s ps = (.ok false, s) := by
  induction ps with
  | nil => rfl
  | cons p rest ih =>
    obtain ⟨pg, hc, hfull⟩ := h p (List.mem_cons_self p rest)
    have hget : BufferPool.GetPage s p = (.ok pg, s) := by
      unfold BufferPool.GetPage
      rw [hc]
    unfold insertProbe
    rw [hget]
    simp only [hfull, if_pos]
    exact ih (fun q hq => h q (List.mem_cons_of_mem p hq))

set_option maxRecDepth 4000 in
/-- C7 counterexample: the claim promises, for every insertTuple call in which
every probed page is full, a successful insert into a freshly allocated page
with PageFull never escaping to the caller. For the 512-Int-column schema
(bytesPerTuple = 4096 > PageSize - 8) a fresh page has zero slots, so on a new
empty heap file the probe loop sees no page, a zero-slot page is allocated,
the insert into it fails, and insertTuple returns PageFull to its caller
(heap_file.go:250-253). -/
theorem C7_counterexample :
    (HeapFile.insertTuple (tupInt 1) c7CexState).1 = .error .pageFull := by
  have hbpt : 0 < bigDesc.bytesPerTuple := by decide
  obtain ⟨bs0, htb0, hparse0⟩ :=
    initFromBuffer_toBuffer (newHeapPage bigDesc 0) (newHeapPage bigDesc 0)
      (wf_newHeapPage 0 hbpt) rfl rfl
  have hlen0 : bs0.length = PageSize := toBuffer_some_length htb0
  have hparse1 : (newHeapPage bigDesc 0).initFromBuffer bs0
      = some (newHeapPage bigDesc 0) := by
    rw [hparse0]
    exact congrArg some (repackedPage_new bigDesc 0)
  have hscan : slotScan (newHeapPage bigDesc 0).tuples (newHeapPage bigDesc 0).numSlots 0
      = .full := by
    have h0 : (newHeapPage bigDesc 0).numSlots = 0 := by decide
    rw [h0]
    rfl
  simp only [HeapFile.insertTuple, c7CexState, insertProbe, HeapFile.flushPage, htb0,
    BufferPool.GetPage, evictPage, HeapFile.readPage, heapPage.insertTuple, hscan, hparse1,
    hlen0, ne_eq, not_true_eq_false, if_false, assocGet_assocSet_self,
    (show (if ((-1 : Int) = -1) then (0 : Nat) else Int.toNat (-1)) = 0 from rfl),
    (show List.range' 0 (0 - 0) = ([] : List Nat) from rfl),
    (show assocGet ([] : List (Nat × heapPage)) 0 = none from rfl),
    (show (List.length ([] : List (Nat × heapPage)) < 10) = True from by simp),
    (show (newHeapPage bigDesc 0).pageNo = 0 from rfl), if_true]

/-- C7 as amended: when every existing page (as probed through the buffer
pool) is full, the schema fits at least one tuple per page, the pool has
spare capacity and the new index is uncached, insertTuple allocates the fresh
page at index numPages, flushes its empty image to disk, increments numPages,
re-fetches the page through the buffer pool, inserts the tuple at its slot 0
marking the page dirty, sets lastEmptyPage to the new page, and returns
success — in particular the PageFull errors of the full pages never reach
the caller. When the schema fits no tuple per page (the counterexample), the
insert into the fresh page itself fails and that PageFull does escape. -/
theorem C7_insert_allocates_new_page (t : Tuple) (s : HFState)
    (hslots : 0 < (newHeapPage s.desc s.numPages).numSlots)
    (hfull : ∀ p, p < s.numPages →
      ∃ pg, assocGet s.cache p = some pg ∧ pg.getNumEmptySlots = 0)
    (hroom : s.cache.length < s.maxPages)
    (habs : assocGet s.cache s.numPages = none) :
    ∃ eb, (newHeapPage s.desc s.numPages).toBuffer = some eb ∧
      HeapFile.insertTuple t s = (.ok (),
        { cache := s.cache ++ [(s.numPages,
            { desc := s.desc
              numSlots := (newHeapPage s.desc s.numPages).numSlots
              numUsed := 1
              dirty := true
              tuples := (newHeapPage s.desc s.numPages).tuples.set 0
                (some { t with Rid := some { pageNo := (s.numPages : Int), slotNo := 0 } })
              pageNo := s.numPages })]
          maxPages := s.maxPages
          disk := assocSet s.disk s.numPages eb
          desc := s.desc
          numPages := s.numPages + 1
          lastEmptyPage := (s.numPages : Int) }) := by
  have hbpt : 0 < s.desc.bytesPerTuple := by
    rcases Nat.eq_zero_or_pos s.desc.bytesPerTuple with h0 | hpos
    · exfalso
      have : (newHeapPage s.desc s.numPages).numSlots = 0 := by
        simp [newHeapPage, h0]
      omega
    · exact hpos
  obtain ⟨bs0, htb0, hparse0⟩ :=
    initFromBuffer_toBuffer (newHeapPage s.desc s.numPages)
      (newHeapPage s.desc s.numPages) (wf_newHeapPage s.numPages hbpt) rfl rfl
  have hlen0 : bs0.length = PageSize := toBuffer_some_length htb0
  refine ⟨bs0, htb0, ?_⟩
  have hprobe : insertProbe t s
      (List.range' (if s.lastEmptyPage = -1 then 0 else s.lastEmptyPage.toNat)
        (s.numPages - (if s.lastEmptyPage = -1 then 0 else s.lastEmptyPage.toNat)))
      = (.ok false, s) := by
    apply insertProbe_all_full
    intro p hp
    apply hfull
    rcases List.mem_range'_1.mp hp with ⟨h1, h2⟩
    omega
  have hscan : slotScan (newHeapPage s.desc s.numPages).tuples
      (newHeapPage s.desc s.numPages).numSlots 0 = .found 0 :=
    slotScan_replicate hslots
  have hparse1 : (newHeapPage s.desc s.numPages).initFromBuffer bs0
      = some (newHeapPage s.desc s.numPages) := by
    rw [hparse0]
    exact congrArg some (repackedPage_new s.desc s.numPages)
  simp only [HeapFile.insertTuple, hprobe, HeapFile.flushPage, htb0, BufferPool.GetPage,
    evictPage, HeapFile.readPage, heapPage.insertTuple, hscan, habs, hroom, if_true,
    assocGet_assocSet_self, hlen0, ne_eq, not_true_eq_false, if_false, hparse1,
    assocSet_append_fresh habs,
    (show (newHeapPage s.desc s.numPages).pageNo = s.numPages from rfl)]
  rfl

/-- A fresh empty one-Int-column heap file behind an empty pool of
capacity 1. -/
def c7WitState : HFState :=
  { cache := [], maxPages := 1, disk := [], desc := intDesc, numPages := 0,
    lastEmptyPage := -1 }

/-- C7 witness: the amended statement at a fresh one-Int-column heap file
behind an empty pool of capacity 1. -/
theorem C7_witness :
    ∃ eb, (newHeapPage c7WitState.desc c7WitState.numPages).toBuffer = some eb ∧
      HeapFile.insertTuple (tupInt 5) c7WitState = (.ok (),
        { cache := c7WitState.cache ++ [(c7WitState.numPages,
            { desc := c7WitState.desc
              numSlots := (newHeapPage c7WitState.desc c7WitState.numPages).numSlots
              numUsed := 1
              dirty := true
              tuples := (newHeapPage c7WitState.desc c7WitState.numPages).tuples.set 0
                (some { tupInt 5 with
                  Rid := some { pageNo := (c7WitState.numPages : Int), slotNo := 0 } })
              pageNo := c7WitState.numPages })]
          maxPages := c7WitState.maxPages
          disk := assocSet c7WitState.disk c7WitState.numPages eb
          desc := c7WitState.desc
          numPages := c7WitState.numPages + 1
          lastEmptyPage := (c7WitState.numPages : Int) }) :=
  C7_insert_allocates_new_page (tupInt 5) c7WitState
    (by decide) (by intro p hp; simp [c7WitState] at hp) (by decide) (by decide)

theorem deleteTuple_invalid {h : heapPage} {rid : heapFileRid}
    (hwf : h.tuples.length = h.numSlots)
    (hbad : rid.slotNo < 0 ∨ (h.numSlots : Int) ≤ rid.slotNo
      ∨ h.tuples[rid.slotNo.toNat]? = some none) :
    h.deleteTuple rid = .error .tupleNotFound := by
  unfold heapPage.deleteTuple
  by_cases hneg : rid.slotNo < 0 ∨ ((h.numSlots : Int) ≤ rid.slotNo)
  · rw [if_pos hneg]
  · rw [if_neg hneg]
    push_neg at hneg
    have h3 : h.tuples[rid.slotNo.toNat]? = some none := by
      rcases hbad with h1 | h2 | h3

      · exact absurd h1 (by omega)
      · exact absurd h2 (by omega)
      · exact h3
    rw [h3]

/-- C10: a deleteTuple call whose rid names a valid page but an out-of-range
or already-empty slot returns TupleNotFound and leaves every slot (and
numUsed) of the page unchanged, yet leaves the page marked dirty in the
cache, because HeapFile.deleteTuple sets the dirty bit (heap_file.go:293)
before the page-level delete examines the slot. -/
theorem C10_failed_delete_marks_dirty (t : Tuple) (s : HFState) (rid : heapFileRid)
    (hp : heapPage)
    (hrid : t.Rid = some rid)
    (hge : 0 ≤ rid.pageNo) (hlt : rid.pageNo < (s.numPages : Int))
    (hcached : assocGet s.cache rid.pageNo.toNat = some hp)
    (hwf : hp.tuples.length = hp.numSlots)
    (hbad : rid.slotNo < 0 ∨ (hp.numSlots : Int) ≤ rid.slotNo
      ∨ hp.tuples[rid.slotNo.toNat]? = some none) :
    HeapFile.deleteTuple t s = (.error .tupleNotFound,
      { s with cache := assocSet s.cache rid.pageNo.toNat { hp with dirty := true } }) ∧
      ({ hp with dirty := true } : heapPage).tuples = hp.tuples ∧
      ({ hp with dirty := true } : heapPage).numUsed = hp.numUsed := by
  refine ⟨?_, rfl, rfl⟩
  have hget : BufferPool.GetPage s rid.pageNo.toNat = (.ok hp, s) := by
    unfold BufferPool.GetPage
    rw [hcached]
  have hdel : ({ hp with dirty := true } : heapPage).deleteTuple rid
      = .error .tupleNotFound :=
    @deleteTuple_invalid { hp with dirty := true } rid hwf hbad
  simp only [HeapFile.deleteTuple, hrid, hget, hdel]
  rw [if_neg (by omega)]

/-- A rid-bearing tuple aimed at the empty slot 1 of onePage. -/
def tupAtSlot1 : Tuple :=
  { Desc := intDesc, Fields := [.IntField 9], Rid := some { pageNo := 0, slotNo := 1 } }

/-- A one-page heap file whose page is cached and clean. -/
def oneCachedState : HFState :=
  { cache := [(0, onePage)], maxPages := 1, disk := [], desc := intDesc, numPages := 1,
    lastEmptyPage := -1 }

/-- C10 witness: deleting the already-empty slot 1 of the cached page fails
with TupleNotFound but dirties the page. -/
theorem C10_witness :
    HeapFile.deleteTuple tupAtSlot1 oneCachedState = (.error .tupleNotFound,
      { oneCachedState with
          cache := assocSet oneCachedState.cache 0 { onePage with dirty := true } }) ∧
      ({ onePage with dirty := true } : heapPage).tuples = onePage.tuples ∧
      ({ onePage with dirty := true } : heapPage).numUsed = onePage.numUsed :=
  C10_failed_delete_marks_dirty tupAtSlot1 oneCachedState
    { pageNo := 0, slotNo := 1 } onePage rfl (by decide) (by decide) (by decide)
    (by decide) (by decide)

end GoDB
